import Mathlib

/-!
Verification development for the EasyMCP template-based request synthesis and
execution engine (`src/core/engine.rs`, `src/core/template.rs`).

The engine compiles each dynamic field of a tool definition into a
`tinytemplate` template after a brace-escaping sanitization pass, and executes
tool calls through one of two backends (HTTP via `reqwest`, command via
`tokio::process`).  This file shallowly embeds:

* `ESCAPE_BRACKET_REGEX` and `sanitize_template_text` (engine.rs, lines 31-91);
* the `tinytemplate` rendering of sanitized templates, together with the two
  formatters registered in `Template::new` (template.rs);
* the per-call pipelines of `general_http_method_template` and
  `general_command_template` (engine.rs), with the external world (HTTP
  response, spawned process) passed in as explicit data.

Strings are modelled as `List Char`; machine I/O (sockets, pipes) is abstracted
to the values the source reads back from it.
-/

/-! ### Character classes of the regex `(\{\s*input\.\w+\s*})|(\{)`

The regex crate runs in Unicode mode by default.  `\s` is exactly the Unicode
`White_Space` property (25 code points, embedded in full below).  `\w` is the
class `[\p{Alphabetic}\p{M}\p{Nd}\p{Pc}\p{Join_Control}]`; embedding every
Unicode table is out of scope, so `isWordChar` embeds the full ASCII part
(`[A-Za-z0-9_]`) plus the Latin-1 supplement letters (U+00C0..U+00FF except
U+00D7 `×` and U+00F7 `÷`, all of which are `Alphabetic`).  No theorem below
depends on the classification of any other non-ASCII character. -/

def isSpaceChar (c : Char) : Bool :=
  decide ((0x9 ≤ c.toNat ∧ c.toNat ≤ 0xD) ∨ c.toNat = 0x20 ∨ c.toNat = 0x85 ∨
    c.toNat = 0xA0 ∨ c.toNat = 0x1680 ∨ (0x2000 ≤ c.toNat ∧ c.toNat ≤ 0x200A) ∨
    c.toNat = 0x2028 ∨ c.toNat = 0x2029 ∨ c.toNat = 0x202F ∨ c.toNat = 0x205F ∨
    c.toNat = 0x3000)

def isWordChar (c : Char) : Bool :=
  decide ((0x30 ≤ c.toNat ∧ c.toNat ≤ 0x39) ∨ (0x41 ≤ c.toNat ∧ c.toNat ≤ 0x5A) ∨
    (0x61 ≤ c.toNat ∧ c.toNat ≤ 0x7A) ∨ c.toNat = 0x5F ∨
    (0xC0 ≤ c.toNat ∧ c.toNat ≤ 0xFF ∧ c.toNat ≠ 0xD7 ∧ c.toNat ≠ 0xF7))

/-- The characters `input.` — the literal part of the interpolation form. -/
def inputDot : List Char := ['i', 'n', 'p', 'u', 't', '.']

/-- Attempt of the first alternative `\{\s*input\.\w+\s*}` of
`ESCAPE_BRACKET_REGEX` at a position just after an opening brace.  Returns
`some (ws1, w, ws2, rest)` when the text begins with
`\s*` (= `ws1`), the literal `input.`, `\w+` (= `w`, nonempty), `\s*` (= `ws2`)
and a closing brace, with `rest` the text after that brace.

Greedy matching of `\s*`/`\w+` equals maximal munch here because the classes
`\s`, `\w` and the literals `i`, `}` are pairwise disjoint on every character
involved, so backtracking can never turn a failed maximal-munch attempt into a
success. -/
def matchPlaceholder (l : List Char) :
    Option (List Char × List Char × List Char × List Char) :=
  let ws1 := l.takeWhile isSpaceChar
  let r1 := l.dropWhile isSpaceChar
  if r1.take 6 = inputDot then
    let r2 := r1.drop 6
    let w := r2.takeWhile isWordChar
    let r3 := r2.dropWhile isWordChar
    if w = [] then none
    else
      let ws2 := r3.takeWhile isSpaceChar
      let r4 := r3.dropWhile isSpaceChar
      if r4.head? = some '}' then some (ws1, w, ws2, r4.tail) else none
  else none

/-- The text consumed by a successful `matchPlaceholder`, without the leading
`{` and including the closing `}`. -/
def placeholderBody (ws1 w ws2 : List Char) : List Char :=
  ws1 ++ inputDot ++ w ++ ws2 ++ ['}']

/-- `sanitize_template_text` (engine.rs lines 76-91): `replace_all` of
`ESCAPE_BRACKET_REGEX` keeping matches of the first alternative (a supported
placeholder) and replacing each remaining `{` (the second alternative) with
`\{`.  Both alternatives start with `{` and a first-alternative match contains
no `{` after its first character, so `replace_all`'s leftmost scan is exactly
this character scan.  Fuel-indexed so the recursion is structural; the fuel is
always at least the length of the text plus one. -/
def sanitizeAux : Nat → List Char → List Char
  | 0, l => l
  | _ + 1, [] => []
  | fuel + 1, c :: rest =>
    if c = '{' then
      match matchPlaceholder rest with
      | some (ws1, w, ws2, rest') =>
        '{' :: (placeholderBody ws1 w ws2 ++ sanitizeAux fuel rest')
      | none => '\\' :: '{' :: sanitizeAux fuel rest
    else c :: sanitizeAux fuel rest

def sanitizeChars (l : List Char) : List Char :=
  sanitizeAux (l.length + 1) l

/-- String-level wrapper of `sanitize_template_text`. -/
def sanitizeText (s : String) : String :=
  ⟨sanitizeChars s.data⟩

/-- Does the text contain, at any position, a match of the first alternative
of `ESCAPE_BRACKET_REGEX` (a supported `input.` placeholder)? -/
def hasPlaceholder : List Char → Bool
  | [] => false
  | c :: rest =>
    (c = '{' && (matchPlaceholder rest).isSome) || hasPlaceholder rest

/-- Replace every `{` with `\{`, leaving everything else unchanged: what the
sanitization pass does to a text with no supported placeholder. -/
def escapeAllBraces : List Char → List Char
  | [] => []
  | c :: rest =>
    if c = '{' then '\\' :: '{' :: escapeAllBraces rest
    else c :: escapeAllBraces rest

/-- `t` is `s` with some backslashes inserted, each immediately before a `{` of
`s`.  The sanitization pass only performs such insertions, hence modifies no
`}` (and no other character) of its input. -/
inductive BraceEscapeOnly : List Char → List Char → Prop
  | nil : BraceEscapeOnly [] []
  | keep (c : Char) {s t : List Char} :
      BraceEscapeOnly s t → BraceEscapeOnly (c :: s) (c :: t)
  | escape {s t : List Char} :
      BraceEscapeOnly s t → BraceEscapeOnly ('{' :: s) ('\\' :: '{' :: t)

/-! ### JSON values (`serde_json::Value`)

Numbers are embedded as integers: no claim (and no concrete datum in the spec)
exercises floating-point literals, whose formatting is outside the scope of
this embedding.  `serde_json`'s `Value::Object` keeps its members in a
`BTreeMap` ordered by key; an object is embedded as its key-ordered member
list, and every concrete object below is written with its keys in order. -/

inductive Json where
  | null
  | bool (b : Bool)
  | num (n : Int)
  | str (s : String)
  | arr (elems : List Json)
  | obj (fields : List (String × Json))

def hexDigitLower (n : Nat) : Char :=
  if n < 10 then Char.ofNat (0x30 + n) else Char.ofNat (0x61 + (n - 10))

/-- String escaping of `serde_json::to_string`: `"` and `\` get a backslash,
the control characters get their short escapes or `\u00XX` (lowercase hex),
everything else — including non-ASCII — is emitted as is. -/
def escapeJsonChar (c : Char) : List Char :=
  if c = '"' then ['\\', '"']
  else if c = '\\' then ['\\', '\\']
  else if c.toNat = 8 then ['\\', 'b']
  else if c.toNat = 9 then ['\\', 't']
  else if c.toNat = 10 then ['\\', 'n']
  else if c.toNat = 12 then ['\\', 'f']
  else if c.toNat = 13 then ['\\', 'r']
  else if c.toNat < 0x20 then
    ['\\', 'u', '0', '0', hexDigitLower (c.toNat / 16), hexDigitLower (c.toNat % 16)]
  else [c]

def serializeStr (s : List Char) : List Char :=
  '"' :: (s.map escapeJsonChar).flatten ++ ['"']

mutual
/-- Compact serialization of `serde_json::to_string`. -/
def serialize : Json → List Char
  | .null => "null".data
  | .bool true => "true".data
  | .bool false => "false".data
  | .num n => (toString n).data
  | .str s => serializeStr s.data
  | .arr xs => '[' :: serializeList xs ++ [']']
  | .obj fs => '{' :: serializeFields fs ++ ['}']

def serializeList : List Json → List Char
  | [] => []
  | [x] => serialize x
  | x :: xs => serialize x ++ ',' :: serializeList xs

def serializeFields : List (String × Json) → List Char
  | [] => []
  | [(k, v)] => serializeStr k.data ++ ':' :: serialize v
  | (k, v) :: fs => serializeStr k.data ++ ':' :: serialize v ++ ',' :: serializeFields fs
end

def serializeText (v : Json) : String := ⟨serialize v⟩

/-! ### The two formatters of `Template::new` (template.rs) -/

def isQuote (c : Char) : Bool := c = '"'

/-- `default_formatter` (template.rs lines 42-47): serialize the value, then
`trim_end_matches('"')` followed by `trim_start_matches('"')` — each removes
EVERY quote character at its end of the string, not just one. -/
def defaultFormat (v : Json) : List Char :=
  ((((serialize v).reverse.dropWhile isQuote).reverse).dropWhile isQuote)

/-- Percent-encoding of `urlencoding::encode`: the RFC 3986 unreserved
characters `[A-Za-z0-9_.~-]` are kept, every other byte of the UTF-8 encoding
becomes `%XX` with uppercase hex. -/
def isUnreservedChar (n : Nat) : Bool :=
  decide ((0x30 ≤ n ∧ n ≤ 0x39) ∨ (0x41 ≤ n ∧ n ≤ 0x5A) ∨ (0x61 ≤ n ∧ n ≤ 0x7A) ∨
    n = 0x5F ∨ n = 0x2D ∨ n = 0x2E ∨ n = 0x7E)

def hexDigitUpper (n : Nat) : Char :=
  if n < 10 then Char.ofNat (0x30 + n) else Char.ofNat (0x41 + (n - 10))

/-- UTF-8 encoding of one scalar value, as byte values. -/
def utf8Bytes (c : Char) : List Nat :=
  let n := c.toNat
  if n < 0x80 then [n]
  else if n < 0x800 then [0xC0 + n / 0x40, 0x80 + n % 0x40]
  else if n < 0x10000 then
    [0xE0 + n / 0x1000, 0x80 + n / 0x40 % 0x40, 0x80 + n % 0x40]
  else
    [0xF0 + n / 0x40000, 0x80 + n / 0x1000 % 0x40, 0x80 + n / 0x40 % 0x40,
      0x80 + n % 0x40]

def percentEncodeByte (n : Nat) : List Char :=
  if isUnreservedChar n then [Char.ofNat n]
  else ['%', hexDigitUpper (n / 16), hexDigitUpper (n % 16)]

def percentEncode (s : List Char) : List Char :=
  ((s.map utf8Bytes).flatten.map percentEncodeByte).flatten

/-- `url_encode_formatter` (template.rs lines 63-73): serialize the value and
percent-encode the result.  Unlike `default_formatter` (and unlike its own doc
comment), it does not strip the surrounding quotes first. -/
def urlEncodeFormat (v : Json) : List Char :=
  percentEncode (serialize v)

/-! ### JSON parsing (`serde_json::from_str::<Value>`)

Faithful to the JSON grammar serde accepts — whitespace, `null`/`true`/`false`,
integers, strings with escapes, arrays, objects, and nothing after the value —
except that numeric literals with a fraction or exponent are rejected
(floating point is outside the scope of this embedding; no claim exercises
it). -/

def isJsonWs (c : Char) : Bool :=
  decide (c.toNat = 0x20 ∨ c.toNat = 0x9 ∨ c.toNat = 0xA ∨ c.toNat = 0xD)

def isDigitChar (c : Char) : Bool :=
  decide (0x30 ≤ c.toNat ∧ c.toNat ≤ 0x39)

def hexVal (c : Char) : Option Nat :=
  if isDigitChar c then some (c.toNat - 0x30)
  else if 0x41 ≤ c.toNat ∧ c.toNat ≤ 0x46 then some (c.toNat - 0x41 + 10)
  else if 0x61 ≤ c.toNat ∧ c.toNat ≤ 0x66 then some (c.toNat - 0x61 + 10)
  else none

def natOfDigits (l : List Char) : Nat :=
  l.foldl (fun acc c => acc * 10 + (c.toNat - 0x30)) 0

/-- Body of a JSON string after the opening quote; `some (content, rest)` with
`rest` the text after the closing quote.  Unescaped control characters are
invalid; `\uXXXX` produces the scalar with that value (surrogate-pair
recombination is elided — no claim exercises it). -/
def parseStringChars : List Char → Option (List Char × List Char)
  | [] => none
  | '"' :: rest => some ([], rest)
  | '\\' :: 'u' :: a :: b :: c :: d :: rest =>
    match hexVal a, hexVal b, hexVal c, hexVal d with
    | some x, some y, some z, some t =>
      (parseStringChars rest).map fun (s, r) =>
        (Char.ofNat (((x * 16 + y) * 16 + z) * 16 + t) :: s, r)
    | _, _, _, _ => none
  | '\\' :: e :: rest =>
    let dec : Option Char :=
      if e = '"' then some '"'
      else if e = '\\' then some '\\'
      else if e = '/' then some '/'
      else if e = 'b' then some (Char.ofNat 8)
      else if e = 'f' then some (Char.ofNat 12)
      else if e = 'n' then some (Char.ofNat 10)
      else if e = 'r' then some (Char.ofNat 13)
      else if e = 't' then some (Char.ofNat 9)
      else none
    match dec with
    | some ch => (parseStringChars rest).map fun (s, r) => (ch :: s, r)
    | none => none
  | c :: rest =>
    if c.toNat < 0x20 then none
    else (parseStringChars rest).map fun (s, r) => (c :: s, r)

/-- A JSON integer literal: optional `-`, then `0` or a nonzero-led digit run.
A following `.`, `e` or `E` (a float) is rejected as out of scope. -/
def parseIntLit (l : List Char) : Option (Int × List Char) :=
  let (neg, l') := match l with
    | '-' :: t => (true, t)
    | _ => (false, l)
  let ds := l'.takeWhile isDigitChar
  let rest := l'.dropWhile isDigitChar
  if ds = [] then none
  else if ds.length > 1 ∧ ds.take 1 = ['0'] then none
  else match rest with
    | '.' :: _ => none
    | 'e' :: _ => none
    | 'E' :: _ => none
    | _ =>
      let n : Int := Int.ofNat (natOfDigits ds)
      some (if neg then -n else n, rest)

mutual
def parseValue : Nat → List Char → Option (Json × List Char)
  | 0, _ => none
  | fuel + 1, l =>
    match l.dropWhile isJsonWs with
    | 'n' :: 'u' :: 'l' :: 'l' :: rest => some (.null, rest)
    | 't' :: 'r' :: 'u' :: 'e' :: rest => some (.bool true, rest)
    | 'f' :: 'a' :: 'l' :: 's' :: 'e' :: rest => some (.bool false, rest)
    | '"' :: rest =>
      (parseStringChars rest).map fun (s, r) => (.str ⟨s⟩, r)
    | '[' :: rest =>
      (match (rest.dropWhile isJsonWs) with
       | ']' :: r => some (.arr [], r)
       | _ =>
         (parseElems fuel rest).map fun (xs, r) => (.arr xs, r))
    | '{' :: rest =>
      (match (rest.dropWhile isJsonWs) with
       | '}' :: r => some (.obj [], r)
       | _ =>
         (parseMembers fuel rest).map fun (fs, r) => (.obj fs, r))
    | rest =>
      (parseIntLit rest).map fun (n, r) => (.num n, r)

def parseElems : Nat → List Char → Option (List Json × List Char)
  | 0, _ => none
  | fuel + 1, l =>
    match parseValue fuel l with
    | none => none
    | some (v, r) =>
      match r.dropWhile isJsonWs with
      | ',' :: r' =>
        (parseElems fuel r').map fun (xs, r'') => (v :: xs, r'')
      | ']' :: r' => some ([v], r')
      | _ => none

def parseMembers : Nat → List Char → Option (List (String × Json) × List Char)
  | 0, _ => none
  | fuel + 1, l =>
    match l.dropWhile isJsonWs with
    | '"' :: rest =>
      match parseStringChars rest with
      | none => none
      | some (k, r) =>
        match r.dropWhile isJsonWs with
        | ':' :: r' =>
          match parseValue fuel r' with
          | none => none
          | some (v, r'') =>
            match r''.dropWhile isJsonWs with
            | ',' :: r3 =>
              (parseMembers fuel r3).map fun (fs, r4) => ((⟨k⟩, v) :: fs, r4)
            | '}' :: r3 => some ([(⟨k⟩, v)], r3)
            | _ => none
        | _ => none
    | _ => none
end

/-- `serde_json::from_str::<Value>` on a whole string: one value, surrounded
only by whitespace. -/
def parseJson (s : String) : Option Json :=
  match parseValue (2 * s.data.length + 4) s.data with
  | some (v, rest) => if rest.dropWhile isJsonWs = [] then some v else none
  | none => none

/-! ### Rendering (`tinytemplate` on sanitized templates)

`TinyTemplate` treats a `{` directly preceded by a backslash as escaped: the
backslash is dropped and the brace is literal; this leftmost character scan is
its documented escaping rule.  After `sanitize_template_text`, every unescaped
`{` begins a supported `{\s*input\.\w+\s*}` placeholder, so block tags `{{`,
comments and formatter selection (`{ path | formatter }`) can never be reached
from template text compiled by the engine; the model reports an error for any
other unescaped `{` (on sanitized text this case is unreachable).  A
placeholder's dotted path `input.<word>` is resolved against the render
context and the found value is written through `default_formatter`, the
formatter installed by `Template::new`. -/

def lookupFields : List (String × Json) → String → Option Json
  | [], _ => none
  | (k, v) :: fs, key => if k = key then some v else lookupFields fs key

/-- One path segment of a `tinytemplate` value lookup: a map `get` on objects,
a numeric index on arrays. -/
def getPathSeg (v : Json) (key : String) : Option Json :=
  match v with
  | .obj fs => lookupFields fs key
  | .arr xs =>
    if key.data ≠ [] ∧ key.data.all isDigitChar then xs.get? (natOfDigits key.data)
    else none
  | _ => none

def renderAux (ctx : Json) : Nat → List Char → Except String (List Char)
  | 0, _ => .error "render fuel exhausted"
  | _ + 1, [] => .ok []
  | fuel + 1, c :: rest =>
    if c = '\\' ∧ rest.head? = some '{' then
      match renderAux ctx fuel rest.tail with
      | .ok t => .ok ('{' :: t)
      | .error e => .error e
    else if c = '{' then
      match matchPlaceholder rest with
      | some (_, w, _, rest') =>
        match (getPathSeg ctx "input").bind (fun v => getPathSeg v ⟨w⟩) with
        | some v =>
          match renderAux ctx fuel rest' with
          | .ok t => .ok (defaultFormat v ++ t)
          | .error e => .error e
        | none => .error ("failed to find value input." ++ ⟨w⟩)
      | none => .error "unclosed or unsupported tag"
    else
      match renderAux ctx fuel rest with
      | .ok t => .ok (c :: t)
      | .error e => .error e

def renderChars (ctx : Json) (l : List Char) : Except String (List Char) :=
  renderAux ctx (l.length + 1) l

/-- One compiled slot, end to end: `add_template(name, sanitize(raw))` at
closure-build time followed by `template.render(name, json!({"input": object}))`
at call time. -/
def renderTemplate (raw : List Char) (object : Json) : Except String (List Char) :=
  renderChars (.obj [("input", object)]) (sanitizeChars raw)

/-- `renderTemplate` on `String`s. -/
def renderSlot (raw : String) (object : Json) : Except String String :=
  match renderTemplate raw.data object with
  | .ok t => .ok ⟨t⟩
  | .error e => .error e

/-! ### Error data and call results (`rmcp::ErrorData`, `CallToolResult`)

Each `ErrorData::new(code, message, None)` site of engine.rs gets one
constructor carrying the data interpolated into its format string;
`CallError.code` and `CallError.message` rebuild the code and the message.
`serde_json`'s own parse-error text (line/column diagnostics) is abstracted to
a fixed tail, the only part of any message not determined by engine.rs. -/

inductive CallError where
  | renderHeaderE (name msg : String)
  | renderUrlE (msg : String)
  | renderBodyE (msg : String)
  | transportE (url msg : String)
  | bodyReadE (url msg : String)
  | jsonParseE (url : String)
  | httpStatusE (url : String) (status : Nat) (body : String)
  | renderCmdE (msg : String)
  | renderArgE (msg : String)
  | spawnE (msg : String)
  | stdinNoneE
  | renderStdinE (msg : String)
  | stdinWriteE (msg : String)
  | waitE (msg : String)
  | commandFailedE (stderr : String)

/-- JSON-RPC error codes: `ErrorCode::PARSE_ERROR` for template-render
failures, `ErrorCode::INTERNAL_ERROR` for everything else, exactly as
engine.rs picks them. -/
def CallError.code : CallError → Int
  | .renderHeaderE .. => -32700
  | .renderUrlE .. => -32700
  | .renderBodyE .. => -32700
  | .renderCmdE .. => -32700
  | .renderArgE .. => -32700
  | .renderStdinE .. => -32700
  | _ => -32603

def CallError.message : CallError → String
  | .renderHeaderE name msg =>
    "Error while rendering header template, header name " ++ name ++ " : " ++ msg
  | .renderUrlE msg => "Error while rendering url template: " ++ msg
  | .renderBodyE msg => "Error while rendering body template: " ++ msg
  | .transportE url msg => "Error while sending a request to " ++ url ++ ": " ++ msg
  | .bodyReadE url msg => "Error while reading content from " ++ url ++ ": " ++ msg
  | .jsonParseE url =>
    "Error while parsing json content from " ++ url ++ ": " ++ "<serde parse error>"
  | .httpStatusE url status body =>
    "Error while sending a request to " ++ url ++ ", got status code : " ++
      toString status ++ ", response body : " ++ body
  | .renderCmdE msg => "Error while rendering command template: " ++ msg
  | .renderArgE msg => "Error while rendering args template: " ++ msg
  | .spawnE msg => "Error while spawning a process: " ++ msg
  | .stdinNoneE => "Error while spawning a process: stdin is None"
  | .renderStdinE msg => "Error while rendering stdin template: " ++ msg
  | .stdinWriteE msg => "Error while writing stdin: " ++ msg
  | .waitE msg => "Error while waiting for a process: " ++ msg
  | .commandFailedE stderr => "Error while executing a command: " ++ stderr

/-- A content item of `CallToolResult::success`: `Content::json` (structured
JSON) or `Content::text`.  `Content::json` on a `serde_json::Value` cannot
fail, so its `map_err` arm is dead and not modelled. -/
inductive Content where
  | jsonContent (v : Json)
  | textContent (s : String)

/-- What one invocation of an executor closure does: return
`Ok(CallToolResult::success(..))`, return `Err(ErrorData)`, or panic (an
`unwrap`/`expect` on a failed operation aborts the call's task instead of
producing a value). -/
inductive Outcome where
  | ok (content : List Content)
  | err (e : CallError)
  | panicked (msg : String)

/-! ### HTTP executor (`general_http_method_template`, engine.rs)

`HeaderName::from_str` accepts exactly the HTTP token characters;
`HeaderValue::from_str` rejects any byte below 0x20 other than TAB and the
byte 0x7F.  The engine calls both with `.unwrap()`. -/

inductive HttpMethod where
  | GET | POST | PUT | DELETE

def isHeaderNameChar (c : Char) : Bool :=
  decide ((0x30 ≤ c.toNat ∧ c.toNat ≤ 0x39) ∨ (0x61 ≤ c.toNat ∧ c.toNat ≤ 0x7A) ∨
    (0x41 ≤ c.toNat ∧ c.toNat ≤ 0x5A) ∨ c.toNat = 0x21 ∨ c.toNat = 0x23 ∨
    c.toNat = 0x24 ∨ c.toNat = 0x25 ∨ c.toNat = 0x26 ∨ c.toNat = 0x27 ∨
    c.toNat = 0x2A ∨ c.toNat = 0x2B ∨ c.toNat = 0x2D ∨ c.toNat = 0x2E ∨
    c.toNat = 0x5E ∨ c.toNat = 0x5F ∨ c.toNat = 0x60 ∨ c.toNat = 0x7C ∨
    c.toNat = 0x7E)

def isValidHeaderName (s : String) : Bool :=
  s.data ≠ [] && s.data.all isHeaderNameChar

def isValidHeaderValueChar (c : Char) : Bool :=
  decide (c.toNat = 0x9 ∨ (0x20 ≤ c.toNat ∧ c.toNat ≠ 0x7F))

def isValidHeaderValue (s : String) : Bool :=
  s.data.all isValidHeaderValueChar

/-- Renders and validates the declared headers in iteration order, stopping at
the first failure as the source's `for` loop does.  (The source iterates a
`HashMap`, whose order is unspecified; the model takes the headers as a list
and every concrete instance below declares at most one header.)  Per header:
render the value template (render failure → `ErrorData` with `PARSE_ERROR`),
then `HeaderName::from_str(name).unwrap()` and
`HeaderValue::from_str(&rendered).unwrap()` — both panic on an invalid
input. -/
def renderHeadersLoop (ctx : Json) : List (String × String) →
    Except Outcome (List (String × String))
  | [] => .ok []
  | (name, raw) :: rest =>
    match renderChars ctx (sanitizeChars raw.data) with
    | .error m => .error (.err (.renderHeaderE name m))
    | .ok rendered =>
      if ¬ isValidHeaderName name then
        .error (.panicked "called Result::unwrap on an Err value: InvalidHeaderName")
      else if ¬ isValidHeaderValue ⟨rendered⟩ then
        .error (.panicked "called Result::unwrap on an Err value: InvalidHeaderValue")
      else
        match renderHeadersLoop ctx rest with
        | .error o => .error o
        | .ok hs => .ok ((name, String.mk rendered) :: hs)

/-- The response side of one `reqwest` exchange, as the source reads it:
`fail` is a send error (`req.send().await` returned `Err`); otherwise the
status code, the `CONTENT_TYPE` header (already `to_str().unwrap_or("")`-ed,
empty when absent), `res.content_length()`, and the result of
`res.text().await`. -/
inductive SendResult where
  | fail (msg : String)
  | resp (status : Nat) (contentType : String) (contentLength : Option Nat)
      (bodyText : Except String String)

def containsSub (needle hay : List Char) : Bool :=
  needle.isPrefixOf hay ||
    match hay with
    | [] => false
    | _ :: t => containsSub needle t

/-- One invocation of the closure built by `general_http_method_template`:
render headers, url and body, send (the exchange's outcome is the explicit
`send` argument), then the response pipeline of engine.rs lines 216-270 —
content-length guard on an unreadable body, JSON parse when the content type
contains `application/json`, status-range check, `Content::json` wrap.
The `method` selects which `reqwest` builder is used and does not otherwise
affect the pipeline. -/
def httpToolCall (_ : HttpMethod) (urlT : String) (bodyT : Option String)
    (headers : List (String × String)) (object : Json) (send : SendResult) :
    Outcome :=
  let ctx : Json := .obj [("input", object)]
  match renderHeadersLoop ctx headers with
  | .error o => o
  | .ok _renderedHeaders =>
    match renderChars ctx (sanitizeChars urlT.data) with
    | .error m => .err (.renderUrlE m)
    | .ok urlChars =>
      let url : String := ⟨urlChars⟩
      let bodyRendered : Except Outcome (Option String) :=
        match bodyT with
        | none => .ok none
        | some b =>
          match renderChars ctx (sanitizeChars b.data) with
          | .error m => .error (.err (.renderBodyE m))
          | .ok t => .ok (some ⟨t⟩)
      match bodyRendered with
      | .error o => o
      | .ok _body =>
        match send with
        | .fail m => .err (.transportE url m)
        | .resp status contentType contentLength bodyText =>
          let len := contentLength.getD 0
          match bodyText with
          | .error m =>
            if len > 0 then .err (.bodyReadE url m)
            else .panicked "called Result::unwrap on an Err value: ErrorData"
          | .ok t =>
            let parsed : Except CallError Json :=
              if containsSub "application/json".data contentType.data then
                match parseJson t with
                | some v => .ok v
                | none => .error (.jsonParseE url)
              else .ok (.str t)
            match parsed with
            | .error e => .err e
            | .ok v =>
              if 200 ≤ status ∧ status ≤ 299 then .ok [.jsonContent v]
              else .err (.httpStatusE url status (serializeText v))

/-! ### Command executor (`general_command_template`, engine.rs)

The observable order of operations matters to the spec, so the model returns
an event trace alongside the outcome: rendering each slot, spawning, writing
stdin, awaiting.  The child process's behaviour arrives through `CmdWorld`. -/

inductive CmdEvent where
  | renderCommandEv
  | renderArgEv (i : Nat)
  | spawnEv (cmd : String) (args : List String)
  | renderStdinEv
  | writeStdinEv (data : String)
  | waitEv

/-- `output.status`, `output.stdout`, `output.stderr` after
`wait_with_output().await` succeeds; `String::from_utf8_lossy` is absorbed
into the `String` fields.  `status.success()` is `exitCode = 0`. -/
structure ProcOutput where
  exitCode : Nat
  stdout : String
  stderr : String

/-- The world of one spawned child: whether `spawn()` succeeded, whether
`command.stdin.take()` yielded a handle, whether writing to stdin succeeded,
and what `wait_with_output().await` returned. -/
structure CmdWorld where
  spawnOk : Except String Unit
  stdinAvailable : Bool
  stdinWriteOk : Except String Unit
  waitResult : Except String ProcOutput

/-- Renders `args_0, args_1, ...` in index order, stopping at the first
failure (`collect::<Result<Vec<_>, _>>()` short-circuits). -/
def renderArgsLoop (ctx : Json) : List String → Nat →
    List CmdEvent × Except CallError (List String)
  | [], _ => ([], .ok [])
  | raw :: rest, i =>
    match renderChars ctx (sanitizeChars raw.data) with
    | .error m => ([.renderArgEv i], .error (.renderArgE m))
    | .ok t =>
      let (evs, res) := renderArgsLoop ctx rest (i + 1)
      (.renderArgEv i :: evs,
        match res with
        | .error e => .error e
        | .ok ts => .ok (String.mk t :: ts))

/-- Awaiting the child and normalizing its output (engine.rs lines 385-414):
non-zero exit embeds the captured stderr in a `ResponseError`; on success
stdout is returned as structured JSON content when `serde_json::from_str`
parses it and as opaque text content otherwise. -/
def commandFinish (events : List CmdEvent) (w : CmdWorld) :
    List CmdEvent × Outcome :=
  let evs := events ++ [CmdEvent.waitEv]
  match w.waitResult with
  | .error m => (evs, .err (.waitE m))
  | .ok out =>
    if out.exitCode ≠ 0 then (evs, .err (.commandFailedE out.stderr))
    else
      match parseJson out.stdout with
      | some j => (evs, .ok [.jsonContent j])
      | none => (evs, .ok [.textContent out.stdout])

/-- One invocation of the closure built by `general_command_template`: render
the command, render each `args_<i>` in index order, spawn, and only then —
when a stdin slot was declared — take the stdin handle, render the stdin
template and write it; finally await the process. -/
def commandToolCall (cmdT : String) (argTs : List String)
    (stdinT : Option String) (object : Json) (w : CmdWorld) :
    List CmdEvent × Outcome :=
  let ctx : Json := .obj [("input", object)]
  match renderChars ctx (sanitizeChars cmdT.data) with
  | .error m => ([.renderCommandEv], .err (.renderCmdE m))
  | .ok cmdChars =>
    let cmd : String := ⟨cmdChars⟩
    let (argEvs, argsRes) := renderArgsLoop ctx argTs 0
    let evs0 := CmdEvent.renderCommandEv :: argEvs
    match argsRes with
    | .error e => (evs0, .err e)
    | .ok args =>
      let evs1 := evs0 ++ [CmdEvent.spawnEv cmd args]
      match w.spawnOk with
      | .error m => (evs1, .err (.spawnE m))
      | .ok _ =>
        match stdinT with
        | none => commandFinish evs1 w
        | some st =>
          if ¬ w.stdinAvailable then (evs1, .err .stdinNoneE)
          else
            let evs2 := evs1 ++ [CmdEvent.renderStdinEv]
            match renderChars ctx (sanitizeChars st.data) with
            | .error m => (evs2, .err (.renderStdinE m))
            | .ok dataChars =>
              let evs3 := evs2 ++ [CmdEvent.writeStdinEv ⟨dataChars⟩]
              match w.stdinWriteOk with
              | .error m => (evs3, .err (.stdinWriteE m))
              | .ok _ => commandFinish evs3 w

/-- Is the event a template-render event?  (Used to state in what order the
command executor renders and spawns.) -/
def CmdEvent.isRenderEv : CmdEvent → Bool
  | .renderCommandEv => true
  | .renderArgEv _ => true
  | .renderStdinEv => true
  | _ => false

/-- Every render event of the trace happens before the spawn: the order the
claim asserts for the command executor. -/
def rendersBeforeSpawn : List CmdEvent → Bool
  | [] => true
  | .spawnEv _ _ :: rest => rest.all (fun e => ¬ e.isRenderEv)
  | _ :: rest => rendersBeforeSpawn rest

/-! ### Spec-side comparison definitions for the default formatter -/

def dropLeadingQuotes (l : List Char) : List Char := l.dropWhile isQuote

def dropTrailingQuotes (l : List Char) : List Char :=
  (l.reverse.dropWhile isQuote).reverse

/-- Modelled from the claim's words: the JSON serialization "with a single
pair of surrounding quote characters stripped" — remove one quote from each
end when both ends carry one, otherwise change nothing. -/
def stripOnePair (l : List Char) : List Char :=
  if 2 ≤ l.length ∧ l.head? = some '"' ∧ l.getLast? = some '"' then
    (l.drop 1).dropLast
  else l

/-- Modelled from the amended claim's words: strip ALL leading and ALL
trailing quote characters. -/
def stripAllQuotes (l : List Char) : List Char :=
  dropTrailingQuotes (dropLeadingQuotes l)

/-! ## Lemmas and theorems -/

lemma space_not_word {c : Char} (h : isSpaceChar c = true) : isWordChar c = false := by
  simp only [isSpaceChar, decide_eq_true_eq] at h
  simp only [isWordChar, decide_eq_false_iff_not]
  omega

lemma brace_not_space : isSpaceChar '{' = false := by decide

lemma brace_not_word : isWordChar '{' = false := by decide

lemma takeWhile_all_append {p : Char → Bool} {xs : List Char} (ys : List Char)
    (h : ∀ c ∈ xs, p c = true) :
    (xs ++ ys).takeWhile p = xs ++ ys.takeWhile p := by
  induction xs with
  | nil => rfl
  | cons c t ih =>
    simp only [List.cons_append, List.takeWhile_cons, h c (by simp), if_true]
    rw [ih (fun d hd => h d (by simp [hd]))]

lemma dropWhile_all_append {p : Char → Bool} {xs : List Char} (ys : List Char)
    (h : ∀ c ∈ xs, p c = true) :
    (xs ++ ys).dropWhile p = ys.dropWhile p := by
  induction xs with
  | nil => rfl
  | cons c t ih =>
    simp only [List.cons_append, List.dropWhile_cons, h c (by simp)]
    exact ih (fun d hd => h d (by simp [hd]))

lemma takeWhile_append_headFalse {p : Char → Bool} (a : List Char) {zh : Char}
    (zt : List Char) (h : p zh = false) :
    (a ++ zh :: zt).takeWhile p = a.takeWhile p := by
  induction a with
  | nil => simp [List.takeWhile_cons, h]
  | cons c t ih =>
    by_cases hc : p c
    · simp [List.takeWhile_cons, hc, ih]
    · simp [List.takeWhile_cons, hc]

lemma dropWhile_append_headFalse {p : Char → Bool} (a : List Char) {zh : Char}
    (zt : List Char) (h : p zh = false) :
    (a ++ zh :: zt).dropWhile p = a.dropWhile p ++ zh :: zt := by
  induction a with
  | nil => simp [List.dropWhile_cons, h]
  | cons c t ih =>
    by_cases hc : p c
    · simp [List.dropWhile_cons, hc, ih]
    · simp [List.dropWhile_cons, hc]

lemma matchPlaceholder_length {l ws1 w ws2 rest : List Char}
    (h : matchPlaceholder l = some (ws1, w, ws2, rest)) : rest.length < l.length := by
  simp only [matchPlaceholder] at h
  split at h
  case isFalse => exact absurd h (by simp)
  case isTrue h6 =>
    split at h
    case isTrue => exact absurd h (by simp)
    case isFalse hw =>
      have hr1 : (l.dropWhile isSpaceChar).length ≤ l.length :=
        (List.dropWhile_sublist _).length_le
      have h6' : 6 ≤ (l.dropWhile isSpaceChar).length := by
        have := congrArg List.length h6
        simp only [List.length_take, inputDot] at this
        simp at this
        omega
      have hsplit := congrArg List.length
        (List.takeWhile_append_dropWhile isWordChar ((l.dropWhile isSpaceChar).drop 6))
      have htw : 1 ≤ (((l.dropWhile isSpaceChar).drop 6).takeWhile isWordChar).length := by
        cases hc : ((l.dropWhile isSpaceChar).drop 6).takeWhile isWordChar with
        | nil => exact absurd hc hw
        | cons a b => simp
      have hr4 : ((((l.dropWhile isSpaceChar).drop 6).dropWhile isWordChar).dropWhile
          isSpaceChar).length ≤
          (((l.dropWhile isSpaceChar).drop 6).dropWhile isWordChar).length :=
        (List.dropWhile_sublist _).length_le
      split at h
      case isFalse => exact absurd h (by simp)
      case isTrue hhd =>
        injection h with h'
        simp only [Prod.mk.injEq] at h'
        obtain ⟨-, -, -, h4⟩ := h'
        subst h4
        have h4ne : (((l.dropWhile isSpaceChar).drop 6).dropWhile isWordChar).dropWhile
            isSpaceChar ≠ [] := by
          intro hnil
          rw [hnil] at hhd
          exact absurd hhd (by simp)
        have hlen4 : ((((l.dropWhile isSpaceChar).drop 6).dropWhile isWordChar).dropWhile
            isSpaceChar).tail.length = ((((l.dropWhile isSpaceChar).drop 6).dropWhile
            isWordChar).dropWhile isSpaceChar).length - 1 := by
          simp [List.length_tail]
        have h4pos : 1 ≤ ((((l.dropWhile isSpaceChar).drop 6).dropWhile isWordChar).dropWhile
            isSpaceChar).length := by
          cases hc : (((l.dropWhile isSpaceChar).drop 6).dropWhile isWordChar).dropWhile
              isSpaceChar with
          | nil => exact absurd hc h4ne
          | cons a b => simp
        simp only [List.length_append, List.length_drop] at hsplit ⊢
        omega

lemma matchPlaceholder_decomp {l ws1 w ws2 rest : List Char}
    (h : matchPlaceholder l = some (ws1, w, ws2, rest)) :
    l = placeholderBody ws1 w ws2 ++ rest ∧
      (∀ c ∈ ws1, isSpaceChar c = true) ∧ w ≠ [] ∧
      (∀ c ∈ w, isWordChar c = true) ∧ (∀ c ∈ ws2, isSpaceChar c = true) := by
  simp only [matchPlaceholder] at h
  split at h
  case isFalse => exact absurd h (by simp)
  case isTrue h6 =>
    split at h
    case isTrue => exact absurd h (by simp)
    case isFalse hw =>
      split at h
      case isFalse => exact absurd h (by simp)
      case isTrue hhd =>
        injection h with h'
        simp only [Prod.mk.injEq] at h'
        obtain ⟨h1, h2, h3, h4⟩ := h'
        subst h1; subst h2; subst h3; subst h4
        have heq : (((l.dropWhile isSpaceChar).drop 6).dropWhile isWordChar).dropWhile
            isSpaceChar = '}' :: ((((l.dropWhile isSpaceChar).drop 6).dropWhile
            isWordChar).dropWhile isSpaceChar).tail := by
          cases hc : (((l.dropWhile isSpaceChar).drop 6).dropWhile isWordChar).dropWhile
              isSpaceChar with
          | nil => rw [hc] at hhd; exact absurd hhd (by simp)
          | cons a b =>
            rw [hc] at hhd
            simp only [List.head?_cons, Option.some.injEq] at hhd
            simp [hhd]
        refine ⟨?_, fun c hc => List.mem_takeWhile_imp hc, hw,
          fun c hc => List.mem_takeWhile_imp hc, fun c hc => List.mem_takeWhile_imp hc⟩
        have e1 := List.takeWhile_append_dropWhile isSpaceChar l
        have e2 := List.take_append_drop 6 (l.dropWhile isSpaceChar)
        have e3 := List.takeWhile_append_dropWhile isWordChar
          ((l.dropWhile isSpaceChar).drop 6)
        have e4 := List.takeWhile_append_dropWhile isSpaceChar
          (((l.dropWhile isSpaceChar).drop 6).dropWhile isWordChar)
        simp only [placeholderBody, List.append_assoc, List.cons_append,
          List.nil_append, List.singleton_append]
        rw [← heq, e4, e3, ← h6, e2, e1]

lemma matchPlaceholder_construct {ws1 w ws2 : List Char} (b : List Char)
    (h1 : ∀ c ∈ ws1, isSpaceChar c = true) (h2 : w ≠ [])
    (h3 : ∀ c ∈ w, isWordChar c = true) (h4 : ∀ c ∈ ws2, isSpaceChar c = true) :
    matchPlaceholder (placeholderBody ws1 w ws2 ++ b) = some (ws1, w, ws2, b) := by
  have hbw : isWordChar '}' = false := by decide
  have hbs : isSpaceChar '}' = false := by decide
  have his : isSpaceChar 'i' = false := by decide
  have hword : (ws2 ++ '}' :: b).takeWhile isWordChar = [] := by
    cases ws2 with
    | nil => simp [List.takeWhile_cons, hbw]
    | cons c t =>
      have : isWordChar c = false := space_not_word (h4 c (by simp))
      simp [List.takeWhile_cons, this]
  have hword' : (ws2 ++ '}' :: b).dropWhile isWordChar = ws2 ++ '}' :: b := by
    cases ws2 with
    | nil => simp [List.dropWhile_cons, hbw]
    | cons c t =>
      have : isWordChar c = false := space_not_word (h4 c (by simp))
      simp [List.dropWhile_cons, this]
  have hbody : placeholderBody ws1 w ws2 ++ b =
      ws1 ++ (inputDot ++ (w ++ (ws2 ++ '}' :: b))) := by
    simp [placeholderBody, List.append_assoc]
  simp only [matchPlaceholder, hbody]
  rw [takeWhile_all_append _ h1, dropWhile_all_append _ h1]
  have hi : (inputDot ++ (w ++ (ws2 ++ '}' :: b))).takeWhile isSpaceChar = [] := by
    simp [inputDot, List.takeWhile_cons, his]
  have hi' : (inputDot ++ (w ++ (ws2 ++ '}' :: b))).dropWhile isSpaceChar =
      inputDot ++ (w ++ (ws2 ++ '}' :: b)) := by
    simp [inputDot, List.dropWhile_cons, his]
  rw [hi, hi', List.append_nil]
  have htake : (inputDot ++ (w ++ (ws2 ++ '}' :: b))).take 6 = inputDot := by
    rw [List.take_append_of_le_length (by simp [inputDot])]
    exact List.take_of_length_le (by simp [inputDot])
  have hdrop : (inputDot ++ (w ++ (ws2 ++ '}' :: b))).drop 6 = w ++ (ws2 ++ '}' :: b) := by
    rw [List.drop_append_of_le_length (by simp [inputDot])]
    simp [inputDot]
  rw [htake, if_pos rfl, hdrop]
  rw [takeWhile_all_append _ h3, dropWhile_all_append _ h3, hword, hword', List.append_nil]
  rw [if_neg h2]
  rw [takeWhile_all_append _ h4, dropWhile_all_append _ h4]
  have hs : ('}' :: b).takeWhile isSpaceChar = [] := by
    simp [List.takeWhile_cons, hbs]
  have hs' : ('}' :: b).dropWhile isSpaceChar = '}' :: b := by
    simp [List.dropWhile_cons, hbs]
  rw [hs, hs', List.append_nil]
  simp

lemma matchPlaceholder_append_brace (a zt : List Char) :
    matchPlaceholder (a ++ '{' :: zt) =
      (matchPlaceholder a).map (fun q => (q.1, q.2.1, q.2.2.1, q.2.2.2 ++ '{' :: zt)) := by
  have hbs : isSpaceChar '{' = false := by decide
  have hbw : isWordChar '{' = false := by decide
  simp only [matchPlaceholder]
  rw [takeWhile_append_headFalse _ _ hbs, dropWhile_append_headFalse _ _ hbs]
  by_cases h6 : 6 ≤ (a.dropWhile isSpaceChar).length
  · rw [List.take_append_of_le_length h6, List.drop_append_of_le_length h6]
    by_cases hid : (a.dropWhile isSpaceChar).take 6 = inputDot
    · rw [if_pos hid, if_pos hid]
      rw [takeWhile_append_headFalse _ _ hbw, dropWhile_append_headFalse _ _ hbw]
      by_cases hw : ((a.dropWhile isSpaceChar).drop 6).takeWhile isWordChar = []
      · rw [if_pos hw, if_pos hw]; rfl
      · rw [if_neg hw, if_neg hw]
        rw [takeWhile_append_headFalse _ _ hbs, dropWhile_append_headFalse _ _ hbs]
        cases hr4 : (((a.dropWhile isSpaceChar).drop 6).dropWhile isWordChar).dropWhile
            isSpaceChar with
        | nil =>
          have hh : (([] : List Char) ++ '{' :: zt).head? = some '{' := rfl
          rw [hh]
          have hne : ¬ ((some '{' : Option Char) = some '}') := by decide
          rw [if_neg hne]
          simp
        | cons c rest =>
          have hh : ((c :: rest) ++ '{' :: zt).head? = some c := rfl
          have hh2 : (c :: rest).head? = some c := rfl
          rw [hh, hh2]
          by_cases hc : (some c : Option Char) = some '}'
          · rw [if_pos hc, if_pos hc]
            simp
          · rw [if_neg hc, if_neg hc]
            simp
    · rw [if_neg hid, if_neg hid]; rfl
  · push_neg at h6
    have hr1 : (a.dropWhile isSpaceChar).take 6 = a.dropWhile isSpaceChar :=
      List.take_of_length_le (le_of_lt h6)
    have hne1 : ¬ ((a.dropWhile isSpaceChar).take 6 = inputDot) := by
      rw [hr1]
      intro hEq
      have := congrArg List.length hEq
      simp [inputDot] at this
      omega
    have hne2 : ¬ ((a.dropWhile isSpaceChar ++ '{' :: zt).take 6 = inputDot) := by
      intro hEq
      have hmem : '{' ∈ (a.dropWhile isSpaceChar ++ '{' :: zt).take 6 := by
        have h66 : (6 : Nat) = (a.dropWhile isSpaceChar).length +
            (6 - (a.dropWhile isSpaceChar).length) := by omega
        rw [h66, List.take_append]
        refine List.mem_append.mpr (Or.inr ?_)
        cases hnn : 6 - (a.dropWhile isSpaceChar).length with
        | zero => omega
        | succ k => rw [List.take_succ_cons]; simp
      rw [hEq] at hmem
      have : ¬ ('{' ∈ inputDot) := by decide
      exact absurd hmem this
    rw [if_neg hne2, if_neg hne1]; rfl

lemma sanitizeAux_cons_other {f : Nat} {c : Char} {l : List Char} (hc : ¬ c = '{') :
    sanitizeAux (f + 1) (c :: l) = c :: sanitizeAux f l := by
  simp only [sanitizeAux, if_neg hc]

lemma sanitizeAux_cons_none {f : Nat} {l : List Char}
    (hm : matchPlaceholder l = none) :
    sanitizeAux (f + 1) ('{' :: l) = '\\' :: '{' :: sanitizeAux f l := by
  simp only [sanitizeAux, hm]
  simp

lemma sanitizeAux_cons_some {f : Nat} {l ws1 w ws2 rest : List Char}
    (hm : matchPlaceholder l = some (ws1, w, ws2, rest)) :
    sanitizeAux (f + 1) ('{' :: l) =
      '{' :: (placeholderBody ws1 w ws2 ++ sanitizeAux f rest) := by
  simp only [sanitizeAux, hm]
  simp

lemma sanitizeAux_fuelEq : ∀ {f1 f2 : Nat} {l : List Char},
    l.length < f1 → l.length < f2 → sanitizeAux f1 l = sanitizeAux f2 l := by
  intro f1
  induction f1 with
  | zero => intro f2 l h1 _; omega
  | succ f1 ih =>
    intro f2 l h1 h2
    cases f2 with
    | zero => omega
    | succ f2 =>
      cases l with
      | nil => rfl
      | cons c rest =>
        simp only [List.length_cons] at h1 h2
        by_cases hc : c = '{'
        · subst hc
          cases hm : matchPlaceholder rest with
          | none =>
            rw [sanitizeAux_cons_none hm, sanitizeAux_cons_none hm,
              ih (show rest.length < f1 by omega) (show rest.length < f2 by omega)]
          | some q =>
            obtain ⟨ws1, w, ws2, rest'⟩ := q
            have hlen := matchPlaceholder_length hm
            rw [sanitizeAux_cons_some hm, sanitizeAux_cons_some hm,
              ih (show rest'.length < f1 by omega) (show rest'.length < f2 by omega)]
        · rw [sanitizeAux_cons_other hc, sanitizeAux_cons_other hc,
            ih (show rest.length < f1 by omega) (show rest.length < f2 by omega)]

lemma sanitizeAux_eq_sanitizeChars {f : Nat} {l : List Char} (h : l.length < f) :
    sanitizeAux f l = sanitizeChars l :=
  sanitizeAux_fuelEq h (by omega)

lemma sanitizeChars_nil : sanitizeChars [] = [] := rfl

lemma sanitizeChars_cons_other {c : Char} {l : List Char} (hc : ¬ c = '{') :
    sanitizeChars (c :: l) = c :: sanitizeChars l := by
  show sanitizeAux ((c :: l).length + 1) (c :: l) = _
  have he : (c :: l).length + 1 = l.length + 1 + 1 := by simp
  rw [he, sanitizeAux_cons_other hc]
  rfl

lemma sanitizeChars_cons_none {l : List Char} (hm : matchPlaceholder l = none) :
    sanitizeChars ('{' :: l) = '\\' :: '{' :: sanitizeChars l := by
  show sanitizeAux (('{' :: l).length + 1) ('{' :: l) = _
  have he : ('{' :: l).length + 1 = l.length + 1 + 1 := by simp
  rw [he, sanitizeAux_cons_none hm]
  rfl

lemma sanitizeChars_cons_some {l ws1 w ws2 rest : List Char}
    (hm : matchPlaceholder l = some (ws1, w, ws2, rest)) :
    sanitizeChars ('{' :: l) =
      '{' :: (placeholderBody ws1 w ws2 ++ sanitizeChars rest) := by
  show sanitizeAux (('{' :: l).length + 1) ('{' :: l) = _
  have he : ('{' :: l).length + 1 = l.length + 1 + 1 := by simp
  rw [he, sanitizeAux_cons_some hm,
    sanitizeAux_eq_sanitizeChars (Nat.lt_succ_of_lt (matchPlaceholder_length hm))]

lemma renderAux_nil {ctx : Json} {f : Nat} : renderAux ctx (f + 1) [] = .ok [] := rfl

lemma renderAux_esc {ctx : Json} {f : Nat} {l : List Char} :
    renderAux ctx (f + 1) ('\\' :: '{' :: l) =
      (renderAux ctx f l).map (fun t => '{' :: t) := by
  simp only [renderAux]
  rw [if_pos (show _ by exact ⟨by trivial, rfl⟩)]
  cases h : renderAux ctx f l <;> simp [h, Except.map, List.tail]

lemma renderAux_backslash {ctx : Json} {f : Nat} {l : List Char}
    (hl : l.head? ≠ some '{') :
    renderAux ctx (f + 1) ('\\' :: l) =
      (renderAux ctx f l).map (fun t => '\\' :: t) := by
  simp only [renderAux]
  rw [if_neg (fun hand => hl hand.2), if_neg (by decide)]
  cases h : renderAux ctx f l <;> simp [h, Except.map]

lemma renderAux_other {ctx : Json} {f : Nat} {c : Char} {l : List Char}
    (hc1 : ¬ c = '\\') (hc2 : ¬ c = '{') :
    renderAux ctx (f + 1) (c :: l) =
      (renderAux ctx f l).map (fun t => c :: t) := by
  simp only [renderAux]
  rw [if_neg (fun hand => hc1 hand.1), if_neg hc2]
  cases h : renderAux ctx f l <;> simp [h, Except.map]

lemma renderAux_ph_some {ctx : Json} {f : Nat} {l ws1 w ws2 rest : List Char}
    {v : Json} (hm : matchPlaceholder l = some (ws1, w, ws2, rest))
    (hv : (getPathSeg ctx "input").bind (fun u => getPathSeg u ⟨w⟩) = some v) :
    renderAux ctx (f + 1) ('{' :: l) =
      (renderAux ctx f rest).map (fun t => defaultFormat v ++ t) := by
  simp only [renderAux]
  rw [if_neg (by simp), if_pos (by trivial)]
  simp only [hm, hv]
  cases h : renderAux ctx f rest <;> simp [h, Except.map]

lemma renderAux_ph_none {ctx : Json} {f : Nat} {l ws1 w ws2 rest : List Char}
    (hm : matchPlaceholder l = some (ws1, w, ws2, rest))
    (hv : (getPathSeg ctx "input").bind (fun u => getPathSeg u ⟨w⟩) = none) :
    renderAux ctx (f + 1) ('{' :: l) =
      .error ("failed to find value input." ++ ⟨w⟩) := by
  simp only [renderAux]
  rw [if_neg (by simp), if_pos (by trivial)]
  simp only [hm, hv]

lemma renderAux_brace_none {ctx : Json} {f : Nat} {l : List Char}
    (hm : matchPlaceholder l = none) :
    renderAux ctx (f + 1) ('{' :: l) = .error "unclosed or unsupported tag" := by
  simp only [renderAux]
  rw [if_neg (by simp), if_pos (by trivial)]
  simp only [hm]

lemma renderAux_fuelEq {ctx : Json} : ∀ {f1 f2 : Nat} {l : List Char},
    l.length < f1 → l.length < f2 → renderAux ctx f1 l = renderAux ctx f2 l := by
  intro f1
  induction f1 with
  | zero => intro f2 l h1 _; omega
  | succ f1 ih =>
    intro f2 l h1 h2
    cases f2 with
    | zero => omega
    | succ f2 =>
      cases l with
      | nil => rfl
      | cons c rest =>
        simp only [List.length_cons] at h1 h2
        by_cases hc1 : c = '\\'
        · subst hc1
          by_cases hh : rest.head? = some '{'
          · cases rest with
            | nil => exact absurd hh (by simp)
            | cons r0 rt =>
              simp only [List.head?_cons, Option.some.injEq] at hh
              subst hh
              simp only [List.length_cons] at h1 h2
              rw [renderAux_esc, renderAux_esc,
                ih (show rt.length < f1 by omega) (show rt.length < f2 by omega)]
          · rw [renderAux_backslash hh, renderAux_backslash hh,
              ih (show rest.length < f1 by omega) (show rest.length < f2 by omega)]
        · by_cases hc2 : c = '{'
          · subst hc2
            cases hm : matchPlaceholder rest with
            | none => rw [renderAux_brace_none hm, renderAux_brace_none hm]
            | some q =>
              obtain ⟨ws1, w, ws2, rest'⟩ := q
              have hlen := matchPlaceholder_length hm
              cases hv : (getPathSeg ctx "input").bind (fun u => getPathSeg u ⟨w⟩) with
              | none => rw [renderAux_ph_none hm hv, renderAux_ph_none hm hv]
              | some v =>
                rw [renderAux_ph_some hm hv, renderAux_ph_some hm hv,
                  ih (show rest'.length < f1 by omega) (show rest'.length < f2 by omega)]
          · rw [renderAux_other hc1 hc2, renderAux_other hc1 hc2,
              ih (show rest.length < f1 by omega) (show rest.length < f2 by omega)]

lemma renderAux_eq_renderChars {ctx : Json} {f : Nat} {l : List Char}
    (h : l.length < f) : renderAux ctx f l = renderChars ctx l :=
  renderAux_fuelEq h (by omega)

lemma renderChars_nil {ctx : Json} : renderChars ctx [] = .ok [] := rfl

lemma renderChars_esc {ctx : Json} {l : List Char} :
    renderChars ctx ('\\' :: '{' :: l) = (renderChars ctx l).map (fun t => '{' :: t) := by
  show renderAux ctx (('\\' :: '{' :: l).length + 1) ('\\' :: '{' :: l) = _
  have he : ('\\' :: '{' :: l).length + 1 = (l.length + 2) + 1 := by simp
  rw [he, renderAux_esc, renderAux_eq_renderChars (show l.length < l.length + 2 by omega)]

lemma renderChars_backslash {ctx : Json} {l : List Char} (hl : l.head? ≠ some '{') :
    renderChars ctx ('\\' :: l) = (renderChars ctx l).map (fun t => '\\' :: t) := by
  show renderAux ctx (('\\' :: l).length + 1) ('\\' :: l) = _
  have he : ('\\' :: l).length + 1 = (l.length + 1) + 1 := by simp
  rw [he, renderAux_backslash hl]
  rfl

lemma renderChars_other {ctx : Json} {c : Char} {l : List Char}
    (hc1 : ¬ c = '\\') (hc2 : ¬ c = '{') :
    renderChars ctx (c :: l) = (renderChars ctx l).map (fun t => c :: t) := by
  show renderAux ctx ((c :: l).length + 1) (c :: l) = _
  have he : (c :: l).length + 1 = (l.length + 1) + 1 := by simp
  rw [he, renderAux_other hc1 hc2]
  rfl

lemma hasPlaceholder_cons {c : Char} {rest : List Char}
    (h : hasPlaceholder (c :: rest) = false) :
    (c = '{' → matchPlaceholder rest = none) ∧ hasPlaceholder rest = false := by
  simp only [hasPlaceholder, Bool.or_eq_false_iff, Bool.and_eq_false_iff] at h
  obtain ⟨h1, h2⟩ := h
  refine ⟨?_, h2⟩
  intro hc
  subst hc
  rcases h1 with h1 | h1
  · simp at h1
  · exact Option.not_isSome_iff_eq_none.mp (by simp [h1])

lemma sanitize_head_ne_brace {l : List Char} (h : hasPlaceholder l = false) :
    (sanitizeChars l).head? ≠ some '{' := by
  cases l with
  | nil => simp [sanitizeChars_nil]
  | cons c rest =>
    by_cases hc : c = '{'
    · subst hc
      have hm := (hasPlaceholder_cons h).1 rfl
      rw [sanitizeChars_cons_none hm]
      simp
    · rw [sanitizeChars_cons_other hc]
      simp [hc]

lemma render_sanitize_literal_aux {ctx : Json} :
    ∀ (n : Nat) (l : List Char), l.length ≤ n → hasPlaceholder l = false →
      renderChars ctx (sanitizeChars l) = .ok l := by
  intro n
  induction n with
  | zero =>
    intro l hn _
    have : l = [] := List.eq_nil_of_length_eq_zero (Nat.le_zero.mp hn)
    subst this
    simp [sanitizeChars_nil, renderChars_nil]
  | succ n ih =>
    intro l hn h
    cases l with
    | nil => simp [sanitizeChars_nil, renderChars_nil]
    | cons c rest =>
      simp only [List.length_cons, Nat.succ_le_succ_iff] at hn
      obtain ⟨hmf, hrest⟩ := hasPlaceholder_cons h
      by_cases hc : c = '{'
      · subst hc
        rw [sanitizeChars_cons_none (hmf rfl), renderChars_esc, ih rest hn hrest]
        rfl
      · rw [sanitizeChars_cons_other hc]
        by_cases hb : c = '\\'
        · subst hb
          rw [renderChars_backslash (sanitize_head_ne_brace hrest), ih rest hn hrest]
          rfl
        · rw [renderChars_other hb hc, ih rest hn hrest]
          rfl

/-- Rendering a sanitized template that contains no supported placeholder
reproduces the original text, whatever the render context. -/
lemma render_sanitize_literal {ctx : Json} {l : List Char}
    (h : hasPlaceholder l = false) :
    renderChars ctx (sanitizeChars l) = .ok l :=
  render_sanitize_literal_aux l.length l (le_refl _) h

lemma braceEscapeOnly_append_left {s t : List Char} (x : List Char)
    (h : BraceEscapeOnly s t) : BraceEscapeOnly (x ++ s) (x ++ t) := by
  induction x with
  | nil => exact h
  | cons c y ih => exact BraceEscapeOnly.keep c ih

lemma sanitize_braceEscapeOnly_aux :
    ∀ (n : Nat) (l : List Char), l.length ≤ n → BraceEscapeOnly l (sanitizeChars l) := by
  intro n
  induction n with
  | zero =>
    intro l hn
    have : l = [] := List.eq_nil_of_length_eq_zero (Nat.le_zero.mp hn)
    subst this
    exact sanitizeChars_nil ▸ BraceEscapeOnly.nil
  | succ n ih =>
    intro l hn
    cases l with
    | nil => exact sanitizeChars_nil ▸ BraceEscapeOnly.nil
    | cons c rest =>
      simp only [List.length_cons, Nat.succ_le_succ_iff] at hn
      by_cases hc : c = '{'
      · subst hc
        cases hm : matchPlaceholder rest with
        | none =>
          rw [sanitizeChars_cons_none hm]
          exact BraceEscapeOnly.escape (ih rest hn)
        | some q =>
          obtain ⟨ws1, w, ws2, rest'⟩ := q
          obtain ⟨hdec, -, -, -, -⟩ := matchPlaceholder_decomp hm
          have hlen := matchPlaceholder_length hm
          rw [sanitizeChars_cons_some hm, hdec]
          exact BraceEscapeOnly.keep '{'
            (braceEscapeOnly_append_left _ (ih rest' (by omega)))
      · rw [sanitizeChars_cons_other hc]
        exact BraceEscapeOnly.keep c (ih rest hn)

lemma sanitize_escapeAll_aux :
    ∀ (n : Nat) (l : List Char), l.length ≤ n → hasPlaceholder l = false →
      sanitizeChars l = escapeAllBraces l := by
  intro n
  induction n with
  | zero =>
    intro l hn _
    have : l = [] := List.eq_nil_of_length_eq_zero (Nat.le_zero.mp hn)
    subst this
    rfl
  | succ n ih =>
    intro l hn h
    cases l with
    | nil => rfl
    | cons c rest =>
      simp only [List.length_cons, Nat.succ_le_succ_iff] at hn
      obtain ⟨hmf, hrest⟩ := hasPlaceholder_cons h
      by_cases hc : c = '{'
      · subst hc
        rw [sanitizeChars_cons_none (hmf rfl), ih rest hn hrest]
        simp [escapeAllBraces]
      · rw [sanitizeChars_cons_other hc, ih rest hn hrest]
        simp [escapeAllBraces, hc]

lemma sanitize_append_ph_aux :
    ∀ (n : Nat) (a : List Char), a.length ≤ n →
      ∀ {ws1 w ws2 : List Char} (b : List Char),
      (∀ c ∈ ws1, isSpaceChar c = true) → w ≠ [] →
      (∀ c ∈ w, isWordChar c = true) → (∀ c ∈ ws2, isSpaceChar c = true) →
      sanitizeChars (a ++ '{' :: placeholderBody ws1 w ws2 ++ b) =
        sanitizeChars a ++ '{' :: placeholderBody ws1 w ws2 ++ sanitizeChars b := by
  intro n
  induction n with
  | zero =>
    intro a hn ws1 w ws2 b h1 h2 h3 h4
    have : a = [] := List.eq_nil_of_length_eq_zero (Nat.le_zero.mp hn)
    subst this
    simp only [List.nil_append, sanitizeChars_nil, List.cons_append]
    rw [sanitizeChars_cons_some (matchPlaceholder_construct b h1 h2 h3 h4)]
  | succ n ih =>
    intro a hn ws1 w ws2 b h1 h2 h3 h4
    cases a with
    | nil =>
      simp only [List.nil_append, sanitizeChars_nil, List.cons_append]
      rw [sanitizeChars_cons_some (matchPlaceholder_construct b h1 h2 h3 h4)]
    | cons c a' =>
      simp only [List.length_cons, Nat.succ_le_succ_iff] at hn
      by_cases hc : c = '{'
      · subst hc
        have hshape : a' ++ '{' :: placeholderBody ws1 w ws2 ++ b =
            a' ++ '{' :: (placeholderBody ws1 w ws2 ++ b) := by
          simp [List.append_assoc]
        have hext := matchPlaceholder_append_brace a' (placeholderBody ws1 w ws2 ++ b)
        cases hm : matchPlaceholder a' with
        | none =>
          have hnone : matchPlaceholder (a' ++ '{' :: placeholderBody ws1 w ws2 ++ b)
              = none := by
            rw [hshape, hext, hm]
            rfl
          have lhs : ('{' :: a') ++ '{' :: placeholderBody ws1 w ws2 ++ b =
              '{' :: (a' ++ '{' :: placeholderBody ws1 w ws2 ++ b) := by
            simp
          rw [lhs, sanitizeChars_cons_none hnone, ih a' hn b h1 h2 h3 h4,
            sanitizeChars_cons_none hm]
          simp
        | some q =>
          obtain ⟨x1, x2, x3, r⟩ := q
          have hsome : matchPlaceholder (a' ++ '{' :: placeholderBody ws1 w ws2 ++ b)
              = some (x1, x2, x3, r ++ '{' :: placeholderBody ws1 w ws2 ++ b) := by
            rw [hshape, hext, hm]
            simp [List.append_assoc]
          have hlen := matchPlaceholder_length hm
          have lhs : ('{' :: a') ++ '{' :: placeholderBody ws1 w ws2 ++ b =
              '{' :: (a' ++ '{' :: placeholderBody ws1 w ws2 ++ b) := by
            simp
          rw [lhs, sanitizeChars_cons_some hsome,
            ih r (by omega) b h1 h2 h3 h4, sanitizeChars_cons_some hm]
          simp
      · have lhs : (c :: a') ++ '{' :: placeholderBody ws1 w ws2 ++ b =
            c :: (a' ++ '{' :: placeholderBody ws1 w ws2 ++ b) := by
          simp
        rw [lhs, sanitizeChars_cons_other hc, ih a' hn b h1 h2 h3 h4,
          sanitizeChars_cons_other hc]
        simp

lemma dropTrailingQuotes_eq_nil_iff {t : List Char} :
    dropTrailingQuotes t = [] ↔ ∀ c ∈ t, isQuote c = true := by
  unfold dropTrailingQuotes
  rw [List.reverse_eq_nil_iff, List.dropWhile_eq_nil_iff]
  constructor
  · intro h c hc
    exact h c (List.mem_reverse.mpr hc)
  · intro h c hc
    exact h c (List.mem_reverse.mp hc)

lemma dropTrailingQuotes_cons {c : Char} {t : List Char} :
    dropTrailingQuotes (c :: t) =
      if isQuote c = true ∧ dropTrailingQuotes t = [] then []
      else c :: dropTrailingQuotes t := by
  unfold dropTrailingQuotes
  rw [List.reverse_cons, List.dropWhile_append]
  by_cases hnil : (t.reverse.dropWhile isQuote).isEmpty
  · rw [if_pos hnil]
    have ht : (t.reverse.dropWhile isQuote).reverse = [] := by
      rw [List.reverse_eq_nil_iff]
      exact List.isEmpty_iff.mp hnil
    by_cases hq : isQuote c
    · rw [if_pos ⟨hq, ht⟩]
      simp [List.dropWhile_cons, hq]
    · rw [if_neg (fun hand => hq hand.1)]
      simp [List.dropWhile_cons, hq, ht]
  · rw [if_neg hnil]
    have ht : ¬ ((t.reverse.dropWhile isQuote).reverse = []) := by
      rw [List.reverse_eq_nil_iff]
      exact fun hh => hnil (by simp [hh])
    rw [if_neg (fun hand => ht hand.2)]
    simp

lemma dropQuotes_comm (l : List Char) :
    dropLeadingQuotes (dropTrailingQuotes l) = dropTrailingQuotes (dropLeadingQuotes l) := by
  induction l with
  | nil => rfl
  | cons c t ih =>
    by_cases hq : isQuote c
    · by_cases hnil : dropTrailingQuotes t = []
      · rw [dropTrailingQuotes_cons, if_pos ⟨hq, hnil⟩]
        have hall : ∀ d ∈ t, isQuote d = true := dropTrailingQuotes_eq_nil_iff.mp hnil
        have hlead : dropLeadingQuotes t = [] := by
          unfold dropLeadingQuotes
          exact List.dropWhile_eq_nil_iff.mpr hall
        unfold dropLeadingQuotes
        simp only [List.dropWhile_nil, List.dropWhile_cons, hq, if_pos]
        rw [show t.dropWhile isQuote = [] from hlead]
        rfl
      · rw [dropTrailingQuotes_cons, if_neg (fun hand => hnil hand.2)]
        unfold dropLeadingQuotes at ih ⊢
        simp only [List.dropWhile_cons, hq, if_pos]
        exact ih
    · rw [dropTrailingQuotes_cons, if_neg (fun hand => hq hand.1)]
      unfold dropLeadingQuotes
      simp only [List.dropWhile_cons, hq, Bool.false_eq_true, if_false]
      rw [dropTrailingQuotes_cons, if_neg (fun hand => hq hand.1)]

lemma defaultFormat_eq_stripAllQuotes (v : Json) :
    defaultFormat v = stripAllQuotes (serialize v) := by
  unfold defaultFormat stripAllQuotes
  have h1 : (((serialize v).reverse.dropWhile isQuote).reverse).dropWhile isQuote =
      dropLeadingQuotes (dropTrailingQuotes (serialize v)) := rfl
  rw [h1, dropQuotes_comm]

lemma renderArgsLoop_spec {ctx : Json} :
    ∀ (argTs : List String) (i : Nat) (evs : List CmdEvent) (args : List String),
      renderArgsLoop ctx argTs i = (evs, .ok args) →
      evs = (List.range argTs.length).map (fun k => CmdEvent.renderArgEv (i + k)) ∧
      args.length = argTs.length ∧
      ∀ (k : Nat) (hk : k < argTs.length) (hk2 : k < args.length),
        renderChars ctx (sanitizeChars (argTs.get ⟨k, hk⟩).data) =
          .ok (args.get ⟨k, hk2⟩).data := by
  intro argTs
  induction argTs with
  | nil =>
    intro i evs args h
    simp only [renderArgsLoop] at h
    injection h with h1 h2
    injection h2 with h2
    subst h1; subst h2
    exact ⟨rfl, rfl, fun k hk => absurd hk (by simp)⟩
  | cons raw rest ih =>
    intro i evs args h
    simp only [renderArgsLoop] at h
    cases hr : renderChars ctx (sanitizeChars raw.data) with
    | error m =>
      rw [hr] at h
      injection h with _ h2
      exact absurd h2.symm (by simp)
    | ok t =>
      rw [hr] at h
      cases hrec : renderArgsLoop ctx rest (i + 1) with
      | mk evs2 res2 =>
        rw [hrec] at h
        cases res2 with
        | error e =>
          simp only at h
          injection h with _ h2
          exact absurd h2.symm (by simp)
        | ok ts =>
          simp only at h
          injection h with h1 h2
          injection h2 with h2
          subst h1
          subst h2
          obtain ⟨ihe, ihl, ihg⟩ := ih (i + 1) evs2 ts hrec
          refine ⟨?_, by simp [ihl], ?_⟩
          · rw [ihe, List.length_cons, List.range_succ_eq_map, List.map_cons,
              List.map_map]
            have hfun : (fun k => CmdEvent.renderArgEv (i + 1 + k)) =
                ((fun k => CmdEvent.renderArgEv (i + k)) ∘ (fun k => k + 1)) := by
              funext k
              simp only [Function.comp]
              rw [show i + 1 + k = i + (k + 1) by omega]
            rw [hfun]
            simp
          · intro k hk hk2
            cases k with
            | zero => exact hr
            | succ j =>
              exact ihg j (by simpa using hk) (by simpa using hk2)

/-- C1: the sanitization pass leaves every placeholder of the exact shape
`'{'`, optional whitespace, `input.`, one or more word characters, optional
whitespace, `'}'` unchanged (part 1: a placeholder occurrence splits the scan,
surviving verbatim); it only ever inserts a backslash immediately before an
opening brace, so it never modifies any `}` or any other character (part 2);
and on text containing no such placeholder it replaces every occurrence of
`{` with the escaped literal `\{` (part 3). -/
theorem C1_sanitize_shape :
    (∀ (a b ws1 w ws2 : List Char),
      (∀ c ∈ ws1, isSpaceChar c = true) → w ≠ [] →
      (∀ c ∈ w, isWordChar c = true) → (∀ c ∈ ws2, isSpaceChar c = true) →
      sanitizeChars (a ++ '{' :: placeholderBody ws1 w ws2 ++ b) =
        sanitizeChars a ++ '{' :: placeholderBody ws1 w ws2 ++ sanitizeChars b) ∧
    (∀ l : List Char, BraceEscapeOnly l (sanitizeChars l)) ∧
    (∀ l : List Char, hasPlaceholder l = false → sanitizeChars l = escapeAllBraces l) :=
  ⟨fun a b ws1 w ws2 h1 h2 h3 h4 =>
      sanitize_append_ph_aux a.length a (le_refl _) b h1 h2 h3 h4,
    fun l => sanitize_braceEscapeOnly_aux l.length l (le_refl _),
    fun l h => sanitize_escapeAll_aux l.length l (le_refl _) h⟩

theorem C1_sanitize_shape_witness :
    sanitizeChars ("a".data ++ '{' :: placeholderBody [' '] "id".data [] ++ "\x7dz".data) =
      sanitizeChars "a".data ++ '{' :: placeholderBody [' '] "id".data [] ++
        sanitizeChars "\x7dz".data ∧
    BraceEscapeOnly "x\x7by\x7d".data (sanitizeChars "x\x7by\x7d".data) ∧
    sanitizeChars "x\x7by\x7d".data = escapeAllBraces "x\x7by\x7d".data :=
  ⟨C1_sanitize_shape.1 "a".data "\x7dz".data [' '] "id".data []
      (by decide) (by decide) (by decide) (by decide),
    C1_sanitize_shape.2.1 "x\x7by\x7d".data,
    C1_sanitize_shape.2.2 "x\x7by\x7d".data (by decide)⟩

/-- C2 counterexample: for the JSON string value `a"` the default formatter
does not strip a single pair of surrounding quotes — the serialization is
`"a\""` and `trim_end_matches('"')` eats both trailing quote characters,
producing `a\`, where a single-pair strip would produce `a\"`. -/
theorem C2_single_pair_cex :
    defaultFormat (.str "a\"") ≠ stripOnePair (serialize (.str "a\"")) ∧
    defaultFormat (.str "a\"") = "a\\".data ∧
    stripOnePair (serialize (.str "a\"")) = "a\\\"".data := by
  refine ⟨?_, by decide, by decide⟩
  decide

/-- C2 amended: the default formatter equals the JSON serialization with ALL
leading and ALL trailing quote characters stripped (which coincides with a
single-pair strip whenever the serialization does not end in an escaped
quote); in particular a string field renders unquoted (`{input.field}` on
`{"field":"x"}` gives `x`) and numbers and objects render as their JSON
text. -/
theorem C2_default_formatter_amended :
    (∀ v : Json, defaultFormat v = stripAllQuotes (serialize v)) ∧
    renderSlot "\x7binput.field\x7d" (.obj [("field", .str "x")]) = .ok "x" ∧
    renderSlot "\x7binput.n\x7d" (.obj [("n", .num 42)]) = .ok "42" ∧
    renderSlot "\x7binput.o\x7d" (.obj [("o", .obj [("a", .num 1)])]) =
      .ok "\x7b\"a\":1\x7d" :=
  ⟨defaultFormat_eq_stripAllQuotes, rfl, rfl, rfl⟩

/-- C3 (claim is right, code is wrong): the URL-encode formatter is registered
and computes JSON-serialize-then-percent-encode, but it is not selectable
from any template text: `tinytemplate` selects a formatter only through a
`{ path | formatter }` value tag, and `ESCAPE_BRACKET_REGEX` matches no such
tag, so the sanitization pass escapes its opening brace and the tag renders
as literal text — the formatter is never invoked. -/
theorem C3_url_encode_unreachable :
    sanitizeText "\x7binput.id | url_encode\x7d" = "\\\x7binput.id | url_encode\x7d" ∧
    renderSlot "\x7binput.id | url_encode\x7d" (.obj [("id", .num 7)]) =
      .ok "\x7binput.id | url_encode\x7d" ∧
    urlEncodeFormat (.str "a b") = "%22a%20b%22".data :=
  ⟨rfl, rfl, by decide⟩

/-- C4 (claim is right, code is wrong): a header-construction failure is not
returned as a structured error — engine.rs calls
`HeaderValue::from_str(&rendered).unwrap()`, so a rendered header value
containing the DEL character (which serde's serialization leaves unescaped
and `HeaderValue` rejects) panics the call instead of producing `ErrorData`. -/
theorem C4_header_unwrap_panics :
    httpToolCall .GET "http://h/a" none [("X-Token", "\x7binput.v\x7d")]
      (.obj [("v", .str "a\x7Fb")]) (.fail "connection refused") =
      .panicked "called Result::unwrap on an Err value: InvalidHeaderValue" := rfl

/-- C5 (claim is right, code is wrong): when the response body cannot be read
as text, engine.rs returns the read error only under `content_length > 0`;
with no declared content length it falls through to `res_text.unwrap()` on the
`Err` value and panics instead of treating the body as empty. -/
theorem C5_body_read_panics :
    httpToolCall .GET "http://h/a" none [] (.obj [])
      (.resp 200 "" none (.error "error decoding response body")) =
      .panicked "called Result::unwrap on an Err value: ErrorData" ∧
    httpToolCall .GET "http://h/a" none [] (.obj [])
      (.resp 200 "" (some 5) (.error "error decoding response body")) =
      .err (.bodyReadE "http://h/a" "error decoding response body") :=
  ⟨rfl, rfl⟩

/-- C6 counterexample: a 404 response that declares `application/json` but
whose body does not parse yields the JSON-parse error, not a status error —
its message names the parse failure and does not embed the status code. -/
theorem C6_status_error_cex :
    httpToolCall .GET "http://h/a" none [] (.obj [])
      (.resp 404 "application/json" (some 9) (.ok "not found")) =
      .err (.jsonParseE "http://h/a") ∧
    containsSub "404".data ((CallError.jsonParseE "http://h/a").message).data = false :=
  ⟨rfl, by decide⟩

/-- C6 amended: for every response whose body was read and — when the content
type declares JSON — parsed successfully, a status outside [200,299] returns
(not panics) the status `ErrorData` whose message embeds the status code and
the serialized body; a JSON-declared body that fails to parse yields the
parse error instead. -/
theorem C6_status_error_amended (status : Nat) (contentType : String)
    (contentLength : Option Nat) (bodyStr : String) (v : Json)
    (hbody : (if containsSub "application/json".data contentType.data then parseJson bodyStr
        else some (.str bodyStr)) = some v)
    (hstatus : ¬ (200 ≤ status ∧ status ≤ 299)) :
    httpToolCall .GET "http://h/a" none [] (.obj [])
        (.resp status contentType contentLength (.ok bodyStr)) =
      .err (.httpStatusE "http://h/a" status (serializeText v)) ∧
    (CallError.httpStatusE "http://h/a" status (serializeText v)).message =
      "Error while sending a request to " ++ "http://h/a" ++ ", got status code : " ++
        toString status ++ ", response body : " ++ serializeText v := by
  refine ⟨?_, rfl⟩
  have hu : renderChars (Json.obj [("input", Json.obj [])])
      (sanitizeChars "http://h/a".data) = .ok "http://h/a".data := rfl
  unfold httpToolCall
  simp only [renderHeadersLoop, hu]
  by_cases hct : containsSub "application/json".data contentType.data = true
  · rw [if_pos hct] at hbody
    simp only [hct, if_true, hbody, if_neg hstatus]
  · rw [if_neg hct] at hbody
    injection hbody with hv
    subst hv
    simp only [Bool.not_eq_true] at hct
    simp only [hct, Bool.false_eq_true, if_false, if_neg hstatus]

theorem C6_status_error_amended_witness :
    (if containsSub "application/json".data "application/json".data then
        parseJson "\x7b\"error\":\"not found\"\x7d"
      else some (.str "\x7b\"error\":\"not found\"\x7d")) =
      some (Json.obj [("error", Json.str "not found")]) ∧
    ¬ ((200 : Nat) ≤ 404 ∧ (404 : Nat) ≤ 299) ∧
    httpToolCall .GET "http://h/a" none [] (.obj [])
        (.resp 404 "application/json" (some 21) (.ok "\x7b\"error\":\"not found\"\x7d")) =
      .err (.httpStatusE "http://h/a" 404
        (serializeText (Json.obj [("error", Json.str "not found")]))) :=
  ⟨rfl, by decide,
    (C6_status_error_amended 404 "application/json" (some 21)
      "\x7b\"error\":\"not found\"\x7d" (Json.obj [("error", Json.str "not found")])
      rfl (by decide)).1⟩

/-- C7: once the spawned process completes, a non-zero exit status returns the
`ErrorData` whose message embeds the captured stderr; on zero exit, stdout is
returned as structured JSON content when `serde_json::from_str` parses it and
as opaque text content otherwise. -/
theorem C7_command_exit_handling (cmdT : String) (argTs : List String)
    (object : Json) (w : CmdWorld) (out : ProcOutput) (cmdChars : List Char)
    (argEvents : List CmdEvent) (args : List String)
    (hcmd : renderChars (Json.obj [("input", object)]) (sanitizeChars cmdT.data) =
      .ok cmdChars)
    (hargs : renderArgsLoop (Json.obj [("input", object)]) argTs 0 = (argEvents, .ok args))
    (hspawn : w.spawnOk = .ok ())
    (hwait : w.waitResult = .ok out) :
    (out.exitCode ≠ 0 →
      (commandToolCall cmdT argTs none object w).2 = .err (.commandFailedE out.stderr) ∧
      (CallError.commandFailedE out.stderr).message =
        "Error while executing a command: " ++ out.stderr) ∧
    (∀ j : Json, out.exitCode = 0 → parseJson out.stdout = some j →
      (commandToolCall cmdT argTs none object w).2 = .ok [.jsonContent j]) ∧
    (out.exitCode = 0 → parseJson out.stdout = none →
      (commandToolCall cmdT argTs none object w).2 = .ok [.textContent out.stdout]) := by
  have hbase : commandToolCall cmdT argTs none object w =
      commandFinish (CmdEvent.renderCommandEv :: argEvents ++
        [CmdEvent.spawnEv ⟨cmdChars⟩ args]) w := by
    unfold commandToolCall
    simp only [hcmd, hargs, hspawn]
  rw [hbase]
  unfold commandFinish
  rw [hwait]
  refine ⟨fun hne => ⟨by simp [hne], rfl⟩, fun j hz hj => by simp [hz, hj],
    fun hz hj => by simp [hz, hj]⟩

theorem C7_command_exit_handling_witness :
    (commandToolCall "echo" ["\x7binput.msg\x7d"] none (.obj [("msg", .str "hi")])
        ⟨.ok (), false, .ok (), .ok ⟨1, "", "boom"⟩⟩).2 =
      .err (.commandFailedE "boom") ∧
    (CallError.commandFailedE "boom").message =
      "Error while executing a command: " ++ "boom" :=
  (C7_command_exit_handling "echo" ["\x7binput.msg\x7d"] (.obj [("msg", .str "hi")])
    ⟨.ok (), false, .ok (), .ok ⟨1, "", "boom"⟩⟩ ⟨1, "", "boom"⟩
    "echo".data [.renderArgEv 0] ["hi"] rfl rfl rfl rfl).1 (by decide)

/-- C8 counterexample: with a stdin slot declared, the trace of one successful
invocation shows the stdin template being rendered AFTER the spawn event, so
it is false that every declared slot is rendered before spawning. -/
theorem C8_render_order_cex :
    rendersBeforeSpawn (commandToolCall "cat" ["-"] (some "\x7binput.d\x7d")
      (.obj [("d", .str "x")]) ⟨.ok (), true, .ok (), .ok ⟨0, "x", ""⟩⟩).1 = false ∧
    (commandToolCall "cat" ["-"] (some "\x7binput.d\x7d") (.obj [("d", .str "x")])
      ⟨.ok (), true, .ok (), .ok ⟨0, "x", ""⟩⟩).1 =
      [.renderCommandEv, .renderArgEv 0, .spawnEv "cat" ["-"], .renderStdinEv,
        .writeStdinEv "x", .waitEv] :=
  ⟨rfl, rfl⟩

/-- C8 amended: the executor renders the command and then each `args_<i>` slot
in index order before spawning, and the rendered argument vector maps 1:1 and
in-order onto the declared `args` sequence; the stdin slot, when declared, is
rendered only after the spawn and before the write to the child's stdin. -/
theorem C8_render_order_amended (cmdT : String) (argTs : List String)
    (stdinT : String) (object : Json) (w : CmdWorld)
    (cmdChars stdinChars : List Char) (argEvents : List CmdEvent)
    (args : List String)
    (hcmd : renderChars (Json.obj [("input", object)]) (sanitizeChars cmdT.data) =
      .ok cmdChars)
    (hargs : renderArgsLoop (Json.obj [("input", object)]) argTs 0 =
      (argEvents, .ok args))
    (hspawn : w.spawnOk = .ok ())
    (havail : w.stdinAvailable = true)
    (hstdin : renderChars (Json.obj [("input", object)]) (sanitizeChars stdinT.data) =
      .ok stdinChars)
    (hwrite : w.stdinWriteOk = .ok ()) :
    (commandToolCall cmdT argTs (some stdinT) object w).1 =
      CmdEvent.renderCommandEv :: argEvents ++
        [CmdEvent.spawnEv ⟨cmdChars⟩ args, CmdEvent.renderStdinEv,
          CmdEvent.writeStdinEv ⟨stdinChars⟩, CmdEvent.waitEv] ∧
    argEvents = (List.range argTs.length).map CmdEvent.renderArgEv ∧
    args.length = argTs.length ∧
    (∀ (k : Nat) (hk : k < argTs.length) (hk2 : k < args.length),
      renderChars (Json.obj [("input", object)]) (sanitizeChars (argTs.get ⟨k, hk⟩).data) =
        .ok (args.get ⟨k, hk2⟩).data) := by
  obtain ⟨he, hl, hg⟩ := renderArgsLoop_spec argTs 0 argEvents args hargs
  refine ⟨?_, by simpa using he, hl, hg⟩
  unfold commandToolCall
  simp only [hcmd, hargs, hspawn, havail, hstdin, hwrite, not_true, if_false]
  unfold commandFinish
  cases hw : w.waitResult with
  | error m => simp
  | ok out =>
    by_cases hz : out.exitCode ≠ 0
    · simp [hz]
    · cases hp : parseJson out.stdout <;> simp [hz, hp]

theorem C8_render_order_amended_witness :
    (commandToolCall "cat" ["-"] (some "\x7binput.d\x7d") (.obj [("d", .str "x")])
        ⟨.ok (), true, .ok (), .ok ⟨0, "x", ""⟩⟩).1 =
      CmdEvent.renderCommandEv :: [CmdEvent.renderArgEv 0] ++
        [CmdEvent.spawnEv "cat" ["-"], CmdEvent.renderStdinEv,
          CmdEvent.writeStdinEv "x", CmdEvent.waitEv] ∧
    [CmdEvent.renderArgEv 0] = (List.range (["-"] : List String).length).map
      CmdEvent.renderArgEv ∧
    renderChars (Json.obj [("input", Json.obj [("d", Json.str "x")])])
        (sanitizeChars "-".data) = .ok "-".data :=
  ⟨(C8_render_order_amended "cat" ["-"] "\x7binput.d\x7d" (.obj [("d", .str "x")])
      ⟨.ok (), true, .ok (), .ok ⟨0, "x", ""⟩⟩ "cat".data "x".data
      [.renderArgEv 0] ["-"] rfl rfl rfl rfl rfl rfl).1,
    (C8_render_order_amended "cat" ["-"] "\x7binput.d\x7d" (.obj [("d", .str "x")])
      ⟨.ok (), true, .ok (), .ok ⟨0, "x", ""⟩⟩ "cat".data "x".data
      [.renderArgEv 0] ["-"] rfl rfl rfl rfl rfl rfl).2.1,
    (C8_render_order_amended "cat" ["-"] "\x7binput.d\x7d" (.obj [("d", .str "x")])
      ⟨.ok (), true, .ok (), .ok ⟨0, "x", ""⟩⟩ "cat".data "x".data
      [.renderArgEv 0] ["-"] rfl rfl rfl rfl rfl rfl).2.2.2 0 (by decide) (by decide)⟩

/-- C9: a template text that contains literal opening braces but no supported
`input.` placeholder renders, after the sanitization pass, to exactly the
original text for every call input: the lone braces are escaped and the
escape round-trips through the renderer. -/
theorem C9_literal_roundtrip (raw : List Char) (object : Json)
    (hbrace : '{' ∈ raw) (hnoph : hasPlaceholder raw = false) :
    renderTemplate raw object = .ok raw := by
  unfold renderTemplate
  exact render_sanitize_literal hnoph

theorem C9_literal_roundtrip_witness :
    '{' ∈ "\x7b\"a\": 1\x7d".data ∧
    hasPlaceholder "\x7b\"a\": 1\x7d".data = false ∧
    renderTemplate "\x7b\"a\": 1\x7d".data (Json.obj [("k", Json.num 5)]) =
      .ok "\x7b\"a\": 1\x7d".data :=
  ⟨by decide, by decide,
    C9_literal_roundtrip "\x7b\"a\": 1\x7d".data (Json.obj [("k", Json.num 5)])
      (by decide) (by decide)⟩

/-- C10 counterexample: `é` lies outside `[A-Za-z0-9_]` but inside the
regex crate's Unicode-aware `\w`, so the placeholder `{input.é}` is NOT
escaped by the sanitization pass — and it renders as a field lookup, not as
literal text. -/
theorem C10_nonword_cex :
    sanitizeText "\x7binput.é\x7d" = "\x7binput.é\x7d" ∧
    renderSlot "\x7binput.é\x7d" (.obj [("é", .num 1)]) = .ok "1" :=
  ⟨rfl, rfl⟩

/-- C10 amended: a placeholder whose field part is not one or more characters
of the regex's word class `\w` — a nested path such as `input.a.b`, or any
field containing a character outside `\w` — has its opening brace escaped by
the sanitization pass and renders as the original literal text for every
input, not as a field lookup and not as a render error. -/
theorem C10_nonword_amended (fld : List Char) (object : Json)
    (h : hasPlaceholder ('{' :: (inputDot ++ fld ++ ['}'])) = false) :
    sanitizeChars ('{' :: (inputDot ++ fld ++ ['}'])) =
      '\\' :: '{' :: sanitizeChars (inputDot ++ fld ++ ['}']) ∧
    renderTemplate ('{' :: (inputDot ++ fld ++ ['}'])) object =
      .ok ('{' :: (inputDot ++ fld ++ ['}'])) := by
  have hm := (hasPlaceholder_cons h).1 rfl
  refine ⟨sanitizeChars_cons_none hm, ?_⟩
  unfold renderTemplate
  exact render_sanitize_literal h

theorem C10_nonword_amended_witness :
    hasPlaceholder ('{' :: (inputDot ++ "a.b".data ++ ['}'])) = false ∧
    sanitizeChars ('{' :: (inputDot ++ "a.b".data ++ ['}'])) =
      '\\' :: '{' :: sanitizeChars (inputDot ++ "a.b".data ++ ['}']) ∧
    renderTemplate ('{' :: (inputDot ++ "a.b".data ++ ['}'])) (Json.obj []) =
      .ok ('{' :: (inputDot ++ "a.b".data ++ ['}'])) :=
  ⟨by decide, (C10_nonword_amended "a.b".data (Json.obj []) (by decide)).1,
    (C10_nonword_amended "a.b".data (Json.obj []) (by decide)).2⟩
